import Mathlib

/-!
Verification of the ATM1b QFIT binary reader (`ATM1b_QFIT/read_ATM1b_QFIT_binary.py`
and `ATM1b_QFIT/time.py`) against its natural-language specification.

The Python source is shallowly embedded: the byte stream is a `List ℕ`
(each entry one byte, value < 256), 32-bit words are decoded to `ℤ` with
explicit two's-complement wrap, IEEE-754 float64/float32 values are modelled
as rationals together with explicit round-to-nearest-even operators at 53 and
24 bits of precision, and the `while` loop of the header reader becomes a
fuel-indexed recursion (the fuel is always taken larger than the number of
records in the file, so the model agrees with the source wherever the source
terminates).
-/

namespace ATM1bQFIT

/-- Byte order of the 32-bit words of a QFIT file (`numpy` dtypes `>i4` / `<i4`). -/
inductive ByteOrder where
  | big : ByteOrder
  | little : ByteOrder
deriving DecidableEq, Repr

/-- Reinterpret an unsigned 32-bit value as a signed (two's-complement) one,
as `numpy.int32` does. -/
def toSigned32 (n : ℕ) : ℤ :=
  if n < 2 ^ 31 then (n : ℤ) else (n : ℤ) - 2 ^ 32

/-- Decode four bytes as a signed 32-bit integer in the given byte order
(`np.frombuffer` / `np.fromfile` with dtype `>i4` or `<i4`).  Lists that do
not have exactly four elements decode to `0`; every use site guards the
length. -/
def decode4 (e : ByteOrder) (bs : List ℕ) : ℤ :=
  match e, bs with
  | ByteOrder.big, [b0, b1, b2, b3] => toSigned32 (((b0 * 256 + b1) * 256 + b2) * 256 + b3)
  | ByteOrder.little, [b0, b1, b2, b3] => toSigned32 (((b3 * 256 + b2) * 256 + b1) * 256 + b0)
  | _, _ => 0

/-- Encode a signed 32-bit integer as four bytes in the given byte order
(used to build concrete test streams; inverse of `decode4`). -/
def encodeWord (e : ByteOrder) (v : ℤ) : List ℕ :=
  let n := (v % 4294967296).toNat
  let b0 := n / 16777216 % 256
  let b1 := n / 65536 % 256
  let b2 := n / 256 % 256
  let b3 := n % 256
  match e with
  | ByteOrder.big => [b0, b1, b2, b3]
  | ByteOrder.little => [b3, b2, b1, b0]

/-- Embedding of `get_record_length` (read_ATM1b_QFIT_binary.py, lines 100-123).
The input is the whole file; the result is `(n_blocks, dtype, file position)`.
The first 4-byte word is read big-endian; if its value exceeds 100 the dtype
switches to little-endian and the word is re-read; `n_blocks = value // 4`
(Python floor division); finally `np.fromfile(fid, dtype, count=n_blocks)`
reads past the first record, leaving the position at `4 * n_blocks` bytes
(clamped to the file length, as `np.fromfile` stops at end of file).
`none` models the unpacking error raised when fewer than 4 bytes exist. -/
def get_record_length (file : List ℕ) : Option (ℤ × ByteOrder × ℕ) :=
  if 4 ≤ file.length then
    let v0 := decode4 ByteOrder.big (file.take 4)
    let p :=
      if 100 < v0 then (ByteOrder.little, decode4 ByteOrder.little (file.take 4))
      else (ByteOrder.big, v0)
    let n := Int.fdiv p.2 4
    some (n, p.1, min file.length (4 * n.toNat))
  else none

/-- Embedding of the `MAXARG` check performed by `read_ATM1b_QFIT_binary`
(lines 352-356) and `ATM1b_QFIT_shape`: after `get_record_length`, an
exception is raised when `n_blocks > 14`; `none` models that exception. -/
def read_binary_check (file : List ℕ) : Option (ℤ × ByteOrder × ℕ) :=
  match get_record_length file with
  | some (n, e, p) => if 14 < n then none else some (n, e, p)
  | none => none

/-- Embedding of the `while (value[0] < 0)` loop of `read_ATM1b_QFIT_header`
(lines 139-147).  Each iteration reads `4 * n` bytes at `pos`
(`fid.read(n_blocks * dtype.itemsize)`), fails like `np.frombuffer` if fewer
bytes remain, appends the bytes after the first word to the header text,
adds `4 * n` to the byte count, and repeats while the first decoded word is
negative.  The fuel argument only bounds the recursion; callers pass more
fuel than the file has bytes, so the model agrees with the source whenever
the source terminates. -/
def headerLoop (file : List ℕ) (e : ByteOrder) (n : ℕ) :
    ℕ → ℕ → ℕ → List ℕ → Option (ℕ × List ℕ)
  | 0, _, _, _ => none
  | fuel + 1, pos, acc, text =>
    let line := (file.drop pos).take (4 * n)
    if line.length < 4 * n then none
    else
      let v0 := decode4 e (line.take 4)
      let acc2 := acc + 4 * n
      let text2 := text ++ line.drop 4
      if v0 < 0 then headerLoop file e n fuel (pos + 4 * n) acc2 text2
      else some (acc2, text2)

/-- Embedding of `read_ATM1b_QFIT_header` (lines 126-155).  `pos` is the
stream position at entry (the caller has already consumed the first record).
Returns `(header_count, header_text)`; the source then executes
`fid.seek(header_count)`, i.e. the stream position after the call is exactly
the returned byte count, and drops the trailing `4 * n` bytes from the text
(Python `header_text[:-itemsize*n_blocks]`, which like `List.take` with
truncated subtraction yields the empty string when the text is shorter). -/
def read_ATM1b_QFIT_header (file : List ℕ) (pos : ℕ) (e : ByteOrder) (n : ℕ) :
    Option (ℕ × List ℕ) :=
  match headerLoop file e n (file.length + 1) pos 0 [] with
  | some (c, t) => some (c, t.take (t.length - 4 * n))
  | none => none

/-- Record-variant selector of `read_ATM1b_QFIT_records` (line 180):
`w = (n_blocks - 10) // 2` with Python floor division. -/
def recordVariant (n : ℤ) : ℤ := Int.fdiv (n - 10) 2

/-- The Modified Julian Day formula of `convert_calendar_dates`
(time.py, lines 93-96), with `np.floor` as the rational floor.  The float64
arithmetic of the source is modelled by exact rational arithmetic. -/
def mjdQ (year month day hour minute second : ℚ) : ℚ :=
  367.0 * year - ⌊7.0 * (year + ⌊(month + 9.0) / 12.0⌋) / 4.0⌋ -
    ⌊3.0 * ((⌊(year + (month - 9.0) / 7.0) / 100.0⌋ : ℚ) + 1.0) / 4.0⌋ +
    ⌊275.0 * month / 9.0⌋ + day + hour / 24.0 + minute / 1440.0 +
    second / 86400.0 + 1721028.5 - 2400000.5

/-- `(datetime.datetime(*epoch) - datetime.datetime(1858,11,17)).total_seconds()`
for a midnight epoch `(year, month, day)`: the day difference between two
Gregorian calendar dates times 86400.  The day difference is expressed with
the same (exact) Julian Day formula the module uses for dates. -/
def epoch_seconds (epoch : ℤ × ℤ × ℤ) : ℚ :=
  (mjdQ epoch.1 epoch.2.1 epoch.2.2 0 0 0 - mjdQ 1858 11 17 0 0 0) * 86400

/-- Embedding of `convert_calendar_dates` (time.py, lines 62-101):
`scale * (MJD - delta_time_epochs / 86400)`, i.e. `scale` times the number
of DAYS between the calendar instant and `epoch`. -/
def convert_calendar_dates (year month day hour minute second : ℚ)
    (epoch : ℤ × ℤ × ℤ) (scale : ℚ) : ℚ :=
  scale * (mjdQ year month day hour minute second - epoch_seconds epoch / 86400)

/-- Embedding of `convert_delta_time` (time.py, lines 39-58):
`scale * (delta_time - (epoch2 - epoch1).total_seconds())`. -/
def convert_delta_time (delta_time : ℚ) (epoch1 epoch2 : ℤ × ℤ × ℤ) (scale : ℚ) : ℚ :=
  scale * (delta_time - (epoch_seconds epoch2 - epoch_seconds epoch1))

/-- Modelled from the spec: the contents of the external data file
`data/leap-seconds.list` consumed by `get_leap_seconds` (the file and the
`utilities.py` loader are not part of the sources under verification).  Each
pair is (NTP-epoch seconds of a leap event, cumulative TAI-UTC offset in
seconds), as described in the spec's external-interfaces section. -/
def ntp_leap_table : List (ℚ × ℚ) :=
  [(2272060800, 10), (2287785600, 11), (2303683200, 12), (2335219200, 13),
   (2366755200, 14), (2398291200, 15), (2429913600, 16), (2461449600, 17),
   (2492985600, 18), (2524521600, 19), (2571782400, 20), (2603318400, 21),
   (2634854400, 22), (2698012800, 23), (2776982400, 24), (2840140800, 25),
   (2871676800, 26), (2918937600, 27), (2950473600, 28), (2982009600, 29),
   (3029443200, 30), (3076704000, 31), (3124137600, 32), (3345062400, 33),
   (3439756800, 34), (3550089600, 35), (3644697600, 36), (3692217600, 37)]

/-- Embedding of `get_leap_seconds` (time.py, lines 133-168) with the default
`truncate=True`: each table entry `(leap_UTC, TAI_UTC)` is converted by
`convert_delta_time(leap_UTC + TAI_UTC - 19 - 1, epoch1=(1900,1,1),
epoch2=(1980,1,6))` and entries with negative GPS time are dropped. -/
def get_leap_seconds : List ℚ :=
  (ntp_leap_table.map fun p =>
    convert_delta_time (p.1 + p.2 - 19.0 - 1) (1900, 1, 1) (1980, 1, 6) 1).filter
    fun x => 0 ≤ x

/-- Embedding of `count_leap_seconds` (time.py, lines 104-130) at a single
input time: one is added to the count for every table entry `leap` with
`GPS_Time >= leap`. -/
def count_leap_seconds (gpsTime : ℚ) : ℚ :=
  ((get_leap_seconds.countP fun leap => decide (leap ≤ gpsTime)) : ℚ)

/-- Embedding of `calc_julian_day` (read_ATM1b_QFIT_binary.py, lines 241-262):
`convert_calendar_dates(..., epoch=(1858,11,17,0,0,0), scale=1.0/86400.0)`
plus `2400000.5`. -/
def calc_julian_day (year month day hour minute second : ℚ) : ℚ :=
  convert_calendar_dates year month day hour minute second (1858, 11, 17)
    (1.0 / 86400.0) + 2400000.5

/-- Embedding of `calc_GPS_to_UTC` (read_ATM1b_QFIT_binary.py, lines 266-287):
`count_leap_seconds(convert_calendar_dates(..., epoch=(1980,1,6,0,0,0),
scale=1.0))`. -/
def calc_GPS_to_UTC (year month day hour minute second : ℚ) : ℚ :=
  count_leap_seconds
    (convert_calendar_dates year month day hour minute second (1980, 1, 6) 1.0)

/-- The `time_J2000` computation of `read_ATM1b_QFIT_records`
(read_ATM1b_QFIT_binary.py, lines 230-235) for one record:
`S = calc_GPS_to_UTC(...)`, `JD = calc_julian_day(..., second - S)`,
`time_J2000 = (JD - 2451545.0) * 86400.0`. -/
def time_J2000_model (year month day hour minute second : ℚ) : ℚ :=
  let S := calc_GPS_to_UTC year month day hour minute second
  let JD := calc_julian_day year month day hour minute (second - S)
  (JD - 2451545.0) * 86400.0

/-- Round-to-nearest, ties-to-even, of a positive rational at `p` bits of
precision: the binade exponent is `Int.log 2 x`, one unit in the last place
is `2 ^ (e - p + 1)`, and the scaled value is rounded to the nearest integer
with ties broken towards the even candidate (IEEE-754 default rounding). -/
def roundPrecPos (p : ℕ) (x : ℚ) : ℚ :=
  let e := Int.log 2 x
  let ulp : ℚ := 2 ^ (e - p + 1)
  let n := ⌊x / ulp⌋
  let r := x / ulp - n
  let m := if 1 / 2 < r then n + 1 else if r < 1 / 2 then n else if n % 2 = 0 then n else n + 1
  (m : ℚ) * ulp

/-- Round-to-nearest-even at `p` bits for any rational (odd extension of
`roundPrecPos`); `roundPrec 53` models IEEE-754 float64 rounding and
`roundPrec 24` models float32 rounding, within their exponent ranges. -/
def roundPrec (p : ℕ) (x : ℚ) : ℚ :=
  if x = 0 then 0 else if x < 0 then -roundPrecPos p (-x) else roundPrecPos p x

/-- The raw element kind of a decoded column: numpy dtype `'i'` (int32) or
`'f'` (float32), as listed in `dtype_table` of `read_ATM1b_QFIT_records`. -/
inductive RawKind where
  | i : RawKind
  | f : RawKind
deriving DecidableEq, Repr

/-- `scaling_table` of `read_ATM1b_QFIT_records` (lines 182-185): the scale
divisors for the 10-, 12- and 14-word formats. -/
def scaling_table : List (List ℚ) :=
  [[1e3, 1e6, 1e6, 1e3, 1, 1, 1e3, 1e3, 1e3, 1e3],
   [1e3, 1e6, 1e6, 1e3, 1, 1, 1e3, 1e3, 1e3, 1.0e1, 1, 1e3],
   [1e3, 1e6, 1e6, 1e3, 1, 1, 1e3, 1e3, 1e3, 1, 1e6, 1e6, 1e3, 1e3]]

/-- `variable_table` of `read_ATM1b_QFIT_records` (lines 187-198). -/
def variable_table : List (List String) :=
  [["rel_time", "latitude", "longitude", "elevation",
    "xmt_sigstr", "rcv_sigstr", "azimuth", "pitch", "roll", "time_hhmmss"],
   ["rel_time", "latitude", "longitude", "elevation",
    "xmt_sigstr", "rcv_sigstr", "azimuth", "pitch", "roll",
    "gps_pdop", "pulse_width", "time_hhmmss"],
   ["rel_time", "latitude", "longitude", "elevation",
    "xmt_sigstr", "rcv_sigstr", "azimuth", "pitch", "roll", "passive_sig",
    "pass_foot_lat", "pass_foot_long", "pass_foot_synth_elev", "time_hhmmss"]]

/-- `dtype_table` of `read_ATM1b_QFIT_records` (lines 200-206). -/
def dtype_table : List (List RawKind) :=
  [[RawKind.f, RawKind.f, RawKind.f, RawKind.f, RawKind.i, RawKind.i,
    RawKind.f, RawKind.f, RawKind.f, RawKind.f],
   [RawKind.f, RawKind.f, RawKind.f, RawKind.f, RawKind.i, RawKind.i,
    RawKind.f, RawKind.f, RawKind.f, RawKind.f, RawKind.i, RawKind.f],
   [RawKind.f, RawKind.f, RawKind.f, RawKind.f, RawKind.i, RawKind.i,
    RawKind.f, RawKind.f, RawKind.f, RawKind.i, RawKind.f, RawKind.f,
    RawKind.f, RawKind.f]]

/-- Truncation toward zero of a rational (assignment of a float into a
numpy int32 array). -/
def ratTrunc (q : ℚ) : ℤ := Int.tdiv q.num (q.den : ℤ)

/-- One column of `ATM_L1b_input[n][r] = v.astype(d)/s` (line 224): the raw
int32 word `v` is converted to the column's numpy dtype, divided by the
float64 scale, and stored into the output array of that dtype.  For an `'i'`
column the conversion `v.astype('i')` is the identity, the float64 division
is rounded at 53 bits and the value is truncated back into the int32 array.
For an `'f'` column `v.astype('f')` rounds `v` to float32 (24 bits), the
float64 division rounds at 53 bits, and the store into the float32 output
array rounds again at 24 bits. -/
def decodeField (k : RawKind) (s : ℚ) (v : ℤ) : ℚ :=
  match k with
  | RawKind.i => ((ratTrunc (roundPrec 53 ((v : ℚ) / s))) : ℚ)
  | RawKind.f => roundPrec 24 (roundPrec 53 (roundPrec 24 (v : ℚ) / s))

/-- The per-record decode loop of lines 223-224: each raw word is paired
with its kind and scale from the per-variant tables. -/
def decodeRecord (w : ℕ) (words : List ℤ) : List ℚ :=
  (words.zip ((dtype_table.getD w []).zip (scaling_table.getD w []))).map
    fun q => decodeField q.2.1 q.2.2 q.1

/-- The ASCII digit character for a decimal digit. -/
def digitChar (d : ℕ) : Char := Char.ofNat (48 + d)

/-- Model of the Python format `'{0:010.3f}'.format(x)` (line 226) for
`0 ≤ x < 10 ^ 6`: the total width 10 splits as 6 zero-padded integer digits,
the decimal point, and 3 fractional digits of the value rounded at the third
decimal with ties to even (CPython rounds the underlying binary double; on
values exactly representable at three decimals the result agrees). -/
def fmt0103 (x : ℚ) : List Char :=
  let n := ⌊x * 1000⌋
  let r := x * 1000 - n
  let t := (if 1 / 2 < r then n + 1 else if r < 1 / 2 then n
    else if n % 2 = 0 then n else n + 1).toNat
  [digitChar (t / 100000000 % 10), digitChar (t / 10000000 % 10),
   digitChar (t / 1000000 % 10), digitChar (t / 100000 % 10),
   digitChar (t / 10000 % 10), digitChar (t / 1000 % 10), '.',
   digitChar (t / 100 % 10), digitChar (t / 10 % 10), digitChar (t % 10)]

/-- Decimal digit-string value, as `np.float64` reads an all-digit slice. -/
def decDigits (cs : List Char) : ℕ :=
  cs.foldl (fun acc ch => 10 * acc + (ch.toNat - 48)) 0

/-- Model of `np.float64` applied to a fixed-point decimal string
`"dd.ddd"`: integer digits before the point plus fractional digits after. -/
def parseFloatChars (cs : List Char) : ℚ :=
  let ip := cs.takeWhile fun ch => ch != '.'
  let fp := (cs.dropWhile fun ch => ch != '.').drop 1
  (decDigits ip : ℚ) + (decDigits fp : ℚ) / 10 ^ fp.length

/-- The fixed character slices of lines 227-229: `[0:2]` is the hour,
`[2:4]` the minute, `[4:]` the second (with fractional part). -/
def parseSlices (cs : List Char) : ℚ × ℚ × ℚ :=
  ((decDigits (cs.take 2) : ℚ), (decDigits ((cs.drop 2).take 2) : ℚ),
    parseFloatChars (cs.drop 4))

/-- The full unpack of lines 226-229: format the packed value, then slice. -/
def unpackHHMMSS (x : ℚ) : ℚ × ℚ × ℚ := parseSlices (fmt0103 x)

/-- The leap-second table, evaluated: the GPS-epoch seconds of the 18 leap
events from 1981-07-01 through 2017-01-01. -/
theorem get_leap_seconds_eq : get_leap_seconds =
    [46828800, 78364801, 109900802, 173059203, 252028804, 315187205,
     346723206, 393984007, 425520008, 457056009, 504489610, 551750411,
     599184012, 820108813, 914803214, 1025136015, 1119744016, 1167264017] := by
  norm_num [get_leap_seconds, ntp_leap_table, convert_delta_time, epoch_seconds, mjdQ,
    List.filter]

/-- C1: the claim asserts that `calc_GPS_to_UTC` feeds `count_leap_seconds`
the instant expressed in SECONDS since the GPS epoch.  In the source the
`scale=1.0` call of `convert_calendar_dates` returns DAYS since the epoch
(11391 for 2011-03-15, not 984182400 seconds), so `calc_GPS_to_UTC` — whose
own docstring and `count_leap_seconds`'s docstring promise seconds — compares
a day count against a table of seconds and returns 0 leap seconds, while the
count at the instant expressed in seconds is 15. -/
theorem C1_gps_to_utc_units :
    convert_calendar_dates 2011 3 15 0 0 0 (1980, 1, 6) 1.0 = 11391 ∧
    calc_GPS_to_UTC 2011 3 15 0 0 0 = 0 ∧
    count_leap_seconds (11391 * 86400) = 15 := by
  refine ⟨?_, ?_, ?_⟩
  · norm_num [convert_calendar_dates, epoch_seconds, mjdQ]
  · norm_num [calc_GPS_to_UTC, count_leap_seconds, get_leap_seconds_eq,
      convert_calendar_dates, epoch_seconds, mjdQ, List.countP, List.countP.go]
  · norm_num [count_leap_seconds, get_leap_seconds_eq, List.countP, List.countP.go]

/-- C2: the claim asserts `time_J2000` is seconds since J2000 of the
leap-second-corrected instant (353419185 for 2011-03-15T00:00:00 with the
15-second GPS-UTC offset).  In the source `calc_julian_day` applies
`scale=1.0/86400.0` to a value `convert_calendar_dates` already returns in
days, so the "Julian Day" it produces for 2011-03-15 is
`2400000.5 + 55635/86400` instead of `2400000.5 + 55635`, and the leap-second
count is 0 (see C1); the decoded `time_J2000` is `-4453389165`, which is not
seconds since 2000-01-01T12:00:00 of any nearby instant. -/
theorem C2_time_J2000_units :
    time_J2000_model 2011 3 15 0 0 0 = -4453389165 ∧
    calc_julian_day 2011 3 15 0 0 0 = 2400000.5 + 55635 / 86400 ∧
    mjdQ 2011 3 15 0 0 0 = 55635 ∧
    (mjdQ 2011 3 15 0 0 (0 - 15) + 2400000.5 - 2451545) * 86400 = 353419185 := by
  refine ⟨?_, ?_, ?_, ?_⟩
  · norm_num [time_J2000_model, calc_julian_day, calc_GPS_to_UTC, count_leap_seconds,
      get_leap_seconds_eq, convert_calendar_dates, epoch_seconds, mjdQ,
      List.countP, List.countP.go]
  · norm_num [calc_julian_day, convert_calendar_dates, epoch_seconds, mjdQ]
  · norm_num [mjdQ]
  · norm_num [mjdQ]

/-- C7: `count_leap_seconds` counts the table entries at or before the input
time (it equals the length of the filtered table), it is non-decreasing, it
returns 0 strictly before the first table entry (46828800), and it returns
the full table length at or after the last entry (1167264017). -/
theorem C7_leap_count :
    (∀ t1 t2 : ℚ, t1 ≤ t2 → count_leap_seconds t1 ≤ count_leap_seconds t2) ∧
    get_leap_seconds.head? = some 46828800 ∧
    get_leap_seconds.getLast? = some 1167264017 ∧
    (∀ t : ℚ, t < 46828800 → count_leap_seconds t = 0) ∧
    (∀ t : ℚ, 1167264017 ≤ t →
      count_leap_seconds t = (get_leap_seconds.length : ℚ)) ∧
    (∀ t : ℚ, count_leap_seconds t =
      ((get_leap_seconds.filter fun leap => decide (leap ≤ t)).length : ℚ)) := by
  refine ⟨?_, ?_, ?_, ?_, ?_, ?_⟩
  · intro t1 t2 h
    have := List.countP_mono_left (l := get_leap_seconds)
      (p := fun leap => decide (leap ≤ t1)) (q := fun leap => decide (leap ≤ t2))
      (fun a _ ha => by
        simp only [decide_eq_true_eq] at ha ⊢
        linarith)
    simp only [count_leap_seconds]
    exact_mod_cast this
  · rw [get_leap_seconds_eq]
    rfl
  · rw [get_leap_seconds_eq]
    rfl
  · intro t ht
    have h0 : (get_leap_seconds.countP fun leap => decide (leap ≤ t)) = 0 := by
      rw [List.countP_eq_zero]
      intro a ha
      simp only [decide_eq_true_eq]
      intro hle
      have : (46828800 : ℚ) ≤ a := by
        rw [get_leap_seconds_eq] at ha
        fin_cases ha <;> norm_num
      linarith
    rw [count_leap_seconds, h0]
    norm_num
  · intro t ht
    have h0 : (get_leap_seconds.countP fun leap => decide (leap ≤ t)) =
        get_leap_seconds.length := by
      rw [List.countP_eq_length]
      intro a ha
      simp only [decide_eq_true_eq]
      have : a ≤ (1167264017 : ℚ) := by
        rw [get_leap_seconds_eq] at ha
        fin_cases ha <;> norm_num
      linarith
    rw [count_leap_seconds, h0]
  · intro t
    rw [count_leap_seconds, List.countP_eq_length_filter]

/-- Witness for C7 at concrete times around the first table entry. -/
theorem C7_leap_count_witness :
    ((0 : ℚ) ≤ 46828800 ∧ count_leap_seconds 0 ≤ count_leap_seconds 46828800) ∧
    ((46828799 : ℚ) < 46828800 ∧ count_leap_seconds 46828799 = 0) ∧
    ((1167264017 : ℚ) ≤ 2000000000 ∧
      count_leap_seconds 2000000000 = (get_leap_seconds.length : ℚ)) := by
  refine ⟨⟨by norm_num, C7_leap_count.1 0 46828800 (by norm_num)⟩,
    ⟨by norm_num, C7_leap_count.2.2.2.1 46828799 (by norm_num)⟩,
    ⟨by norm_num, C7_leap_count.2.2.2.2.1 2000000000 (by norm_num)⟩⟩

/-- `encodeWord` on a big-endian value below 256 places it in the last byte. -/
lemma encodeWord_big_small (v : ℤ) (h0 : 0 ≤ v) (h1 : v < 256) :
    encodeWord ByteOrder.big v = [0, 0, 0, v.toNat] := by
  simp only [encodeWord]
  rw [Int.emod_eq_of_lt h0 (by omega)]
  simp only [List.cons.injEq, and_true]
  omega

/-- `encodeWord` on a little-endian value below 256 places it in the first byte. -/
lemma encodeWord_little_small (v : ℤ) (h0 : 0 ≤ v) (h1 : v < 256) :
    encodeWord ByteOrder.little v = [v.toNat, 0, 0, 0] := by
  simp only [encodeWord]
  rw [Int.emod_eq_of_lt h0 (by omega)]
  simp only [List.cons.injEq, and_true]
  omega

/-- Detection on a big-endian stream whose first word is `4 * wc`. -/
lemma grl_detect_big (wc : ℕ) (rest : List ℕ) (h1 : 10 ≤ wc) (h2 : wc ≤ 14)
    (h3 : 4 * wc ≤ 4 + rest.length) :
    get_record_length ([0, 0, 0, 4 * wc] ++ rest) = some ((wc : ℤ), ByteOrder.big, 4 * wc) := by
  have ht4 : ([0, 0, 0, 4 * wc] ++ rest).take 4 = [0, 0, 0, 4 * wc] := rfl
  have hlen : ([0, 0, 0, 4 * wc] ++ rest).length = 4 + rest.length := by
    simp
    omega
  have hdec : decode4 ByteOrder.big [0, 0, 0, 4 * wc] = ((4 * wc : ℕ) : ℤ) := by
    simp only [decode4, toSigned32]
    rw [if_pos (by omega : ((0 * 256 + 0) * 256 + 0) * 256 + 4 * wc < 2 ^ 31)]
    omega
  simp only [get_record_length, ht4, hlen, hdec]
  rw [if_pos (by omega : 4 ≤ 4 + rest.length)]
  rw [if_neg (by omega : ¬(100 : ℤ) < (4 * wc : ℕ))]
  rw [Int.fdiv_eq_ediv _ (by norm_num)]
  have hn : ((4 * wc : ℕ) : ℤ) / 4 = (wc : ℤ) := by omega
  rw [hn]
  simp only [Option.some.injEq, Prod.mk.injEq, true_and]
  omega

/-- Detection on a little-endian stream: the big-endian probe reads an
implausibly large value, so the reader switches byte order and re-reads. -/
lemma grl_detect_little (wc : ℕ) (rest : List ℕ) (h1 : 10 ≤ wc) (h2 : wc ≤ 14)
    (h3 : 4 * wc ≤ 4 + rest.length) :
    get_record_length ([4 * wc, 0, 0, 0] ++ rest) =
      some ((wc : ℤ), ByteOrder.little, 4 * wc) := by
  have ht4 : ([4 * wc, 0, 0, 0] ++ rest).take 4 = [4 * wc, 0, 0, 0] := rfl
  have hlen : ([4 * wc, 0, 0, 0] ++ rest).length = 4 + rest.length := by
    simp
    omega
  have hdecB : decode4 ByteOrder.big [4 * wc, 0, 0, 0] =
      ((((4 * wc * 256 + 0) * 256 + 0) * 256 + 0 : ℕ) : ℤ) := by
    simp only [decode4, toSigned32]
    rw [if_pos (by omega : ((4 * wc * 256 + 0) * 256 + 0) * 256 + 0 < 2 ^ 31)]
  have hdecL : decode4 ByteOrder.little [4 * wc, 0, 0, 0] = ((4 * wc : ℕ) : ℤ) := by
    simp only [decode4, toSigned32]
    rw [if_pos (by omega : ((0 * 256 + 0) * 256 + 0) * 256 + 4 * wc < 2 ^ 31)]
    omega
  simp only [get_record_length, ht4, hlen, hdecB, hdecL]
  rw [if_pos (by omega : 4 ≤ 4 + rest.length)]
  rw [if_pos (by omega : (100 : ℤ) < (((4 * wc * 256 + 0) * 256 + 0) * 256 + 0 : ℕ))]
  rw [Int.fdiv_eq_ediv _ (by norm_num)]
  have hn : ((4 * wc : ℕ) : ℤ) / 4 = (wc : ℤ) := by omega
  rw [hn]
  simp only [Option.some.injEq, Prod.mk.injEq, true_and]
  omega

/-- Detection is correct for both encodings of every word count in [10, 14]. -/
lemma grl_detect (wc : ℕ) (e : ByteOrder) (rest : List ℕ) (h1 : 10 ≤ wc) (h2 : wc ≤ 14)
    (h3 : 4 * wc ≤ 4 + rest.length) :
    get_record_length (encodeWord e (4 * wc) ++ rest) = some ((wc : ℤ), e, 4 * wc) := by
  have h0 : (0 : ℤ) ≤ 4 * wc := by positivity
  have h256 : (4 * (wc : ℤ)) < 256 := by omega
  have htn : (4 * (wc : ℤ)).toNat = 4 * wc := by omega
  cases e
  case big =>
    rw [encodeWord_big_small _ h0 h256, htn]
    exact grl_detect_big wc rest h1 h2 h3
  case little =>
    rw [encodeWord_little_small _ h0 h256, htn]
    exact grl_detect_little wc rest h1 h2 h3

/-- The caller-side check fails exactly when the detected word count
exceeds 14. -/
lemma check_none_iff (file : List ℕ) (n : ℤ) (e : ByteOrder) (p : ℕ)
    (h : get_record_length file = some (n, e, p)) :
    read_binary_check file = none ↔ 14 < n := by
  simp only [read_binary_check, h]
  split_ifs with h14 <;> simp [h14]

/-- Length of a flattened list of equal-length records. -/
lemma flatten_length_eq (fs : List (List ℕ)) (L : ℕ) (h : ∀ f ∈ fs, f.length = L) :
    fs.flatten.length = fs.length * L := by
  induction fs with
  | nil => simp
  | cons f fs ih =>
    simp only [List.flatten_cons, List.length_append, List.length_cons]
    rw [h f (by simp), ih fun g hg => h g (by simp [hg])]
    ring

/-- Any successful run of the header loop adds a positive multiple of the
record byte size to its accumulator. -/
lemma headerLoop_count (file : List ℕ) (e : ByteOrder) (n : ℕ) :
    ∀ (fuel pos acc : ℕ) (text : List ℕ) (c : ℕ) (t : List ℕ),
      headerLoop file e n fuel pos acc text = some (c, t) →
      ∃ k, 0 < k ∧ c = acc + k * (4 * n) := by
  intro fuel
  induction fuel with
  | zero =>
    intro pos acc text c t h
    simp [headerLoop] at h
  | succ fuel ih =>
    intro pos acc text c t h
    simp only [headerLoop] at h
    by_cases hlen : ((file.drop pos).take (4 * n)).length < 4 * n
    · rw [if_pos hlen] at h
      exact absurd h (by simp)
    · rw [if_neg hlen] at h
      by_cases hneg : decode4 e (((file.drop pos).take (4 * n)).take 4) < 0
      · rw [if_pos hneg] at h
        obtain ⟨k, hk, hc⟩ := ih _ _ _ _ _ h
        exact ⟨k + 1, by omega, by rw [hc]; ring⟩
      · rw [if_neg hneg] at h
        simp only [Option.some.injEq, Prod.mk.injEq] at h
        exact ⟨1, by omega, by omega⟩

/-- The header loop walks through a block of filler records (each a full
record with a negative first word), accumulating their byte count and text. -/
lemma headerLoop_fillers (file : List ℕ) (e : ByteOrder) (n : ℕ) :
    ∀ (fillers : List (List ℕ)) (fuel pos acc : ℕ) (text suffix : List ℕ),
      (∀ fr ∈ fillers, fr.length = 4 * n ∧ decode4 e (fr.take 4) < 0) →
      file.drop pos = fillers.flatten ++ suffix →
      headerLoop file e n (fuel + fillers.length) pos acc text =
        headerLoop file e n fuel (pos + fillers.length * (4 * n))
          (acc + fillers.length * (4 * n))
          (text ++ (fillers.map fun fr => fr.drop 4).flatten) := by
  intro fillers
  induction fillers with
  | nil =>
    intro fuel pos acc text suffix _ _
    simp
  | cons f fs ih =>
    intro fuel pos acc text suffix hall hdrop
    obtain ⟨hflen, hfneg⟩ := hall f (by simp)
    rw [show fuel + (f :: fs).length = (fuel + fs.length) + 1 by
      simp only [List.length_cons]; omega]
    rw [List.flatten_cons, List.append_assoc] at hdrop
    simp only [headerLoop]
    have hline : (file.drop pos).take (4 * n) = f := by
      rw [hdrop, ← hflen, List.take_left]
    rw [hline, hflen]
    rw [if_neg (by omega : ¬ 4 * n < 4 * n)]
    rw [if_pos hfneg]
    have hdrop2 : file.drop (pos + 4 * n) = fs.flatten ++ suffix := by
      have h2 := congrArg (List.drop (4 * n)) hdrop
      rw [List.drop_drop] at h2
      rw [show 4 * n = f.length from hflen.symm] at h2
      rw [List.drop_left] at h2
      rw [show pos + 4 * n = pos + f.length by omega]
      exact h2
    rw [ih fuel (pos + 4 * n) (acc + 4 * n) (text ++ f.drop 4) suffix
      (fun g hg => hall g (List.mem_cons_of_mem _ hg)) hdrop2]
    have e1 : pos + 4 * n + fs.length * (4 * n) = pos + (f :: fs).length * (4 * n) := by
      simp only [List.length_cons]
      ring
    have e2 : acc + 4 * n + fs.length * (4 * n) = acc + (f :: fs).length * (4 * n) := by
      simp only [List.length_cons]
      ring
    have e3 : text ++ f.drop 4 ++ (fs.map fun fr => fr.drop 4).flatten =
        text ++ ((f :: fs).map fun fr => fr.drop 4).flatten := by
      simp only [List.map_cons, List.flatten_cons, List.append_assoc]
    rw [e1, e2, e3]

/-- C3 (amended): on a stream holding the record-length record, `K`
negative-tagged filler records and then a data record, the header reader
returns `(K + 1) * wordCount * 4` bytes — the `K` filler records PLUS the
leading record-length record consumed during detection — and that byte count
is exactly the offset of the first data record, at which the stream is
repositioned. -/
theorem C3_header_length_amended
    (n : ℕ) (e : ByteOrder) (rec0 : List ℕ) (fillers : List (List ℕ))
    (dataRec rest : List ℕ) (hn : 0 < n) (hrec0 : rec0.length = 4 * n)
    (hfill : ∀ fr ∈ fillers, fr.length = 4 * n ∧ decode4 e (fr.take 4) < 0)
    (hdata : dataRec.length = 4 * n) (hdata0 : 0 ≤ decode4 e (dataRec.take 4)) :
    (read_ATM1b_QFIT_header (rec0 ++ (fillers.flatten ++ (dataRec ++ rest)))
        (4 * n) e n).map Prod.fst = some ((fillers.length + 1) * (4 * n)) ∧
    (fillers.length + 1) * (4 * n) = rec0.length + fillers.flatten.length := by
  have hflat : fillers.flatten.length = fillers.length * (4 * n) :=
    flatten_length_eq _ _ fun f hf => (hfill f hf).1
  have hmul : fillers.length * 1 ≤ fillers.length * (4 * n) :=
    Nat.mul_le_mul_left _ (by omega)
  have hlenfile : (rec0 ++ (fillers.flatten ++ (dataRec ++ rest))).length =
      4 * n + (fillers.length * (4 * n) + (4 * n + rest.length)) := by
    simp [hrec0, hflat, hdata]
  refine ⟨?_, ?_⟩
  · have hdropped : (rec0 ++ (fillers.flatten ++ (dataRec ++ rest))).drop (4 * n) =
        fillers.flatten ++ (dataRec ++ rest) := by
      rw [← hrec0, List.drop_left]
    simp only [read_ATM1b_QFIT_header]
    rw [show (rec0 ++ (fillers.flatten ++ (dataRec ++ rest))).length + 1 =
      ((rec0 ++ (fillers.flatten ++ (dataRec ++ rest))).length + 1 - fillers.length) +
        fillers.length by omega]
    rw [headerLoop_fillers _ e n fillers _ _ _ _ _ hfill hdropped]
    obtain ⟨m, hm⟩ : ∃ m,
        (rec0 ++ (fillers.flatten ++ (dataRec ++ rest))).length + 1 - fillers.length =
          m + 1 := ⟨(rec0 ++ (fillers.flatten ++ (dataRec ++ rest))).length - fillers.length,
            by omega⟩
    rw [hm]
    simp only [headerLoop]
    have hdrop2 : (rec0 ++ (fillers.flatten ++ (dataRec ++ rest))).drop
        (4 * n + fillers.length * (4 * n)) = dataRec ++ rest := by
      rw [show rec0 ++ (fillers.flatten ++ (dataRec ++ rest)) =
        (rec0 ++ fillers.flatten) ++ (dataRec ++ rest) from (List.append_assoc _ _ _).symm]
      rw [show 4 * n + fillers.length * (4 * n) = (rec0 ++ fillers.flatten).length by
        simp [hrec0, hflat]]
      exact List.drop_left _ _
    rw [hdrop2]
    rw [show (dataRec ++ rest).take (4 * n) = dataRec by rw [← hdata, List.take_left]]
    rw [hdata]
    rw [if_neg (by omega : ¬ 4 * n < 4 * n)]
    rw [if_neg (not_lt.mpr hdata0)]
    simp only [Option.map_some', Option.some.injEq]
    ring
  · rw [hrec0, hflat]
    ring

/-- Counterexample to C3 as stated: a 10-word stream with K = 1 filler
record.  The claim predicts a header byte length of `K * wordCount * 4 = 40`
bytes; the code returns 80 (it also counts the leading record-length
record). -/
theorem C3_header_length_counterexample :
    (read_ATM1b_QFIT_header
      (([0, 0, 0, 40] ++ List.replicate 36 0) ++
        (([255, 255, 255, 255] ++ List.replicate 36 0) ++ (List.replicate 40 0 ++ [])))
      40 ByteOrder.big 10).map Prod.fst = some 80 ∧ (80 : ℕ) ≠ 1 * (10 * 4) := by
  decide

/-- Witness for C3 (amended) at the same concrete stream. -/
theorem C3_header_length_witness :
    (0 < 10 ∧ ([0, 0, 0, 40] ++ List.replicate 36 0).length = 4 * 10) ∧
    (read_ATM1b_QFIT_header
        (([0, 0, 0, 40] ++ List.replicate 36 0) ++
          (([[255, 255, 255, 255] ++ List.replicate 36 0] : List (List ℕ)).flatten ++
            (List.replicate 40 0 ++ [])))
        (4 * 10) ByteOrder.big 10).map Prod.fst =
      some ((([[255, 255, 255, 255] ++ List.replicate 36 0] : List (List ℕ)).length + 1) *
        (4 * 10)) ∧
    (([[255, 255, 255, 255] ++ List.replicate 36 0] : List (List ℕ)).length + 1) * (4 * 10) =
      ([0, 0, 0, 40] ++ List.replicate 36 0).length +
        ([[255, 255, 255, 255] ++ List.replicate 36 0] : List (List ℕ)).flatten.length := by
  refine ⟨⟨by norm_num, by decide⟩, ?_⟩
  exact C3_header_length_amended 10 ByteOrder.big ([0, 0, 0, 40] ++ List.replicate 36 0)
    [[255, 255, 255, 255] ++ List.replicate 36 0] (List.replicate 40 0) []
    (by norm_num) (by decide) (by decide) (by decide) (by decide)

/-- C4 (amended): after detection `get_record_length` leaves the stream
position at `wordCount * 4` — the end of the first record — not at the start
of the file: detection itself consumes the first record, and header
extraction does not re-read it. -/
theorem C4_stream_position_amended (wc : ℕ) (e : ByteOrder) (rest : List ℕ)
    (h1 : 10 ≤ wc) (h2 : wc ≤ 14) (h3 : 4 * wc ≤ 4 + rest.length) :
    get_record_length (encodeWord e (4 * wc) ++ rest) = some ((wc : ℤ), e, 4 * wc) ∧
    0 < 4 * wc :=
  ⟨grl_detect wc e rest h1 h2 h3, by omega⟩

/-- Counterexample to C4 as stated: on a valid 10-word big-endian stream the
final position is 40, not 0. -/
theorem C4_stream_position_counterexample :
    get_record_length ([0, 0, 0, 40] ++ List.replicate 36 0) =
      some (10, ByteOrder.big, 40) ∧ (40 : ℕ) ≠ 0 := by
  decide

/-- Witness for C4 (amended) at a concrete 10-word big-endian stream. -/
theorem C4_stream_position_witness :
    (10 ≤ 10 ∧ 10 ≤ 14 ∧ 4 * 10 ≤ 4 + (List.replicate 36 0 : List ℕ).length) ∧
    get_record_length (encodeWord ByteOrder.big (4 * 10) ++ List.replicate 36 0) =
      some ((10 : ℤ), ByteOrder.big, 4 * 10) ∧ 0 < 4 * 10 := by
  refine ⟨⟨by norm_num, by norm_num, by decide⟩, ?_⟩
  exact C4_stream_position_amended 10 ByteOrder.big (List.replicate 36 0)
    (by norm_num) (by norm_num) (by decide)

/-- C5 (amended): the only fatal word-count check is `n_blocks > 14`; word
counts 11 and 13 are NOT rejected and select variants 0 and 1 by floor
division, while 10, 12 and 14 select variants 0, 1 and 2. -/
theorem C5_variant_amended :
    (∀ (file : List ℕ) (n : ℤ) (e : ByteOrder) (p : ℕ),
      get_record_length file = some (n, e, p) →
      (read_binary_check file = none ↔ 14 < n)) ∧
    recordVariant 10 = 0 ∧ recordVariant 11 = 0 ∧ recordVariant 12 = 1 ∧
    recordVariant 13 = 1 ∧ recordVariant 14 = 2 :=
  ⟨check_none_iff, by decide, by decide, by decide, by decide, by decide⟩

/-- Counterexample to C5 as stated: a stream with word count 11 (not one of
10, 12, 14) raises no error — the check passes and decoding would proceed
with the 10-word layout (variant 0). -/
theorem C5_variant_counterexample :
    read_binary_check ([0, 0, 0, 44] ++ List.replicate 40 0) =
      some (11, ByteOrder.big, 44) ∧
    ¬ (11 : ℤ) ∈ ([10, 12, 14] : List ℤ) ∧ recordVariant 11 = 0 := by
  decide

/-- Witness for C5 (amended) at a concrete 11-word stream. -/
theorem C5_variant_witness :
    get_record_length ([0, 0, 0, 44] ++ List.replicate 40 0) =
      some (11, ByteOrder.big, 44) ∧
    (read_binary_check ([0, 0, 0, 44] ++ List.replicate 40 0) = none ↔ (14 : ℤ) < 11) :=
  ⟨by decide, C5_variant_amended.1 _ 11 ByteOrder.big 44 (by decide)⟩

/-- C8: the first word is read as a big-endian signed 32-bit integer, the
reader switches to little-endian exactly when that value exceeds 100, the
word count is the re-read value divided by 4, both byte orders are detected
correctly for every word count in [10, 14], and the caller raises exactly
when the word count exceeds 14. -/
theorem C8_endian_detect :
    (∀ (wc : ℕ) (e : ByteOrder) (rest : List ℕ), 10 ≤ wc → wc ≤ 14 →
      4 * wc ≤ 4 + rest.length →
      get_record_length (encodeWord e (4 * wc) ++ rest) = some ((wc : ℤ), e, 4 * wc) ∧
      read_binary_check (encodeWord e (4 * wc) ++ rest) = some ((wc : ℤ), e, 4 * wc)) ∧
    (∀ (file : List ℕ) (n : ℤ) (e : ByteOrder) (p : ℕ),
      get_record_length file = some (n, e, p) →
      (read_binary_check file = none ↔ 14 < n)) ∧
    (∀ (b0 b1 b2 b3 : ℕ) (rest : List ℕ) (n : ℤ) (e : ByteOrder) (p : ℕ),
      get_record_length (b0 :: b1 :: b2 :: b3 :: rest) = some (n, e, p) →
      (e = ByteOrder.little ↔ 100 < decode4 ByteOrder.big [b0, b1, b2, b3])) := by
  refine ⟨?_, check_none_iff, ?_⟩
  · intro wc e rest h1 h2 h3
    have hg := grl_detect wc e rest h1 h2 h3
    refine ⟨hg, ?_⟩
    simp only [read_binary_check, hg]
    rw [if_neg (by omega : ¬ (14 : ℤ) < (wc : ℤ))]
  · intro b0 b1 b2 b3 rest n e p h
    have ht : (b0 :: b1 :: b2 :: b3 :: rest).take 4 = [b0, b1, b2, b3] := rfl
    simp only [get_record_length, ht] at h
    rw [if_pos (by simp : 4 ≤ (b0 :: b1 :: b2 :: b3 :: rest).length)] at h
    by_cases hc : 100 < decode4 ByteOrder.big [b0, b1, b2, b3]
    · rw [if_pos hc] at h
      simp only [Option.some.injEq, Prod.mk.injEq] at h
      rw [← h.2.1]
      simp [hc]
    · rw [if_neg hc] at h
      simp only [Option.some.injEq, Prod.mk.injEq] at h
      rw [← h.2.1]
      simp [hc]

/-- Witness for C8 at word count 12 in little-endian encoding. -/
theorem C8_endian_detect_witness :
    (10 ≤ 12 ∧ 12 ≤ 14 ∧ 4 * 12 ≤ 4 + (List.replicate 44 0 : List ℕ).length) ∧
    get_record_length (encodeWord ByteOrder.little (4 * 12) ++ List.replicate 44 0) =
      some ((12 : ℤ), ByteOrder.little, 4 * 12) ∧
    read_binary_check (encodeWord ByteOrder.little (4 * 12) ++ List.replicate 44 0) =
      some ((12 : ℤ), ByteOrder.little, 4 * 12) := by
  refine ⟨⟨by norm_num, by norm_num, by decide⟩, ?_⟩
  exact C8_endian_detect.1 12 ByteOrder.little (List.replicate 44 0)
    (by norm_num) (by norm_num) (by decide)

/-- C10: the header loop always runs at least once (the sentinel first word
is -1), so any returned header byte count is a positive multiple of
`wordCount * 4`; on a stream whose current record already has a nonnegative
first word (zero filler records), the returned count is exactly
`wordCount * 4`, accounting for the record consumed by detection. -/
theorem C10_header_at_least_once :
    (∀ (file : List ℕ) (pos : ℕ) (e : ByteOrder) (n : ℕ) (c : ℕ) (t : List ℕ),
      0 < n → read_ATM1b_QFIT_header file pos e n = some (c, t) →
      4 * n ≤ c ∧ 4 * n ∣ c) ∧
    (∀ (file : List ℕ) (pos : ℕ) (e : ByteOrder) (n : ℕ),
      0 < n → 4 * n ≤ (file.drop pos).length →
      0 ≤ decode4 e (((file.drop pos).take (4 * n)).take 4) →
      (read_ATM1b_QFIT_header file pos e n).map Prod.fst = some (4 * n)) := by
  constructor
  · intro file pos e n c t hn h
    simp only [read_ATM1b_QFIT_header] at h
    cases hh : headerLoop file e n (file.length + 1) pos 0 [] with
    | none =>
      rw [hh] at h
      exact absurd h (by simp)
    | some ct =>
      rw [hh] at h
      obtain ⟨k, hk, hc⟩ := headerLoop_count file e n _ _ _ _ _ _ hh
      simp only [Option.some.injEq, Prod.mk.injEq] at h
      have hck : c = k * (4 * n) := by omega
      constructor
      · calc 4 * n = 1 * (4 * n) := by ring
          _ ≤ k * (4 * n) := Nat.mul_le_mul_right _ hk
          _ = c := hck.symm
      · exact ⟨k, by rw [hck]; ring⟩
  · intro file pos e n hn hlen hv0
    simp only [read_ATM1b_QFIT_header, headerLoop]
    rw [if_neg (by rw [List.length_take]; omega)]
    rw [if_neg (not_lt.mpr hv0)]
    simp

/-- Witness for C10 on a 10-word stream whose first record is already data. -/
theorem C10_header_at_least_once_witness :
    (0 < 10 ∧ 4 * 10 ≤ ((List.replicate 40 0 : List ℕ).drop 0).length ∧
      0 ≤ decode4 ByteOrder.big
        ((((List.replicate 40 0 : List ℕ).drop 0).take (4 * 10)).take 4)) ∧
    (read_ATM1b_QFIT_header (List.replicate 40 0) 0 ByteOrder.big 10).map Prod.fst =
      some (4 * 10) := by
  refine ⟨⟨by norm_num, by decide, by decide⟩, ?_⟩
  exact C10_header_at_least_once.2 (List.replicate 40 0) 0 ByteOrder.big 10
    (by norm_num) (by decide) (by decide)

lemma roundPrec_zero (p : ℕ) : roundPrec p 0 = 0 := by
  simp [roundPrec]

lemma roundPrec_neg (p : ℕ) (x : ℚ) : roundPrec p (-x) = -roundPrec p x := by
  unfold roundPrec
  rcases lt_trichotomy x 0 with h | h | h
  · rw [if_neg (by intro hc; exact absurd (neg_eq_zero.mp hc) (ne_of_lt h)),
      if_neg (by simpa using le_of_lt h), if_neg (ne_of_lt h), if_pos h, neg_neg]
  · subst h
    simp
  · rw [if_neg (by simpa using ne_of_gt h), if_pos (by simpa using h),
      if_neg (by simpa using ne_of_gt h), if_neg (by simpa using le_of_lt h), neg_neg]

/-- Key error bound: rounding a positive rational at `p` bits moves it by at
most half an ulp, i.e. by at most `2 ^ (-p)` of its value. -/
lemma roundPrecPos_err (p : ℕ) (x : ℚ) (hx : 0 < x) :
    |roundPrecPos p x - x| ≤ 2 ^ (-(p : ℤ)) * x := by
  have hlog1 : (2 : ℚ) ^ (Int.log 2 x) ≤ x := Int.zpow_log_le_self one_lt_two hx
  simp only [roundPrecPos]
  set e := Int.log 2 x with he
  set u : ℚ := 2 ^ (e - p + 1) with hu
  have hu0 : (0 : ℚ) < u := by positivity
  set n := ⌊x / u⌋ with hn
  have hfl : (n : ℚ) ≤ x / u := Int.floor_le _
  have hfl2 : x / u < n + 1 := Int.lt_floor_add_one _
  set r := x / u - (n : ℚ) with hr
  have hr0 : 0 ≤ r := by rw [hr]; linarith
  have hr1 : r < 1 := by rw [hr]; linarith
  have hxu : x / u = (n : ℚ) + r := by rw [hr]; ring
  have habs : |((if 1 / 2 < r then n + 1 else if r < 1 / 2 then n
      else if n % 2 = 0 then n else n + 1 : ℤ) : ℚ) - x / u| ≤ 1 / 2 := by
    split_ifs with h1 h2 h3
    · rw [hxu]
      push_cast
      rw [show ((n : ℚ) + 1) - ((n : ℚ) + r) = 1 - r by ring,
        abs_of_nonneg (by linarith)]
      linarith
    · rw [hxu, show ((n : ℚ)) - ((n : ℚ) + r) = -r by ring, abs_neg,
        abs_of_nonneg hr0]
      linarith
    · rw [hxu, show ((n : ℚ)) - ((n : ℚ) + r) = -r by ring, abs_neg,
        abs_of_nonneg hr0]
      linarith
    · rw [hxu]
      push_cast
      rw [show ((n : ℚ) + 1) - ((n : ℚ) + r) = 1 - r by ring,
        abs_of_nonneg (by linarith)]
      linarith
  have hxuu : x = x / u * u := by field_simp
  have hmain : |((if 1 / 2 < r then n + 1 else if r < 1 / 2 then n
      else if n % 2 = 0 then n else n + 1 : ℤ) : ℚ) * u - x| ≤ u / 2 := by
    calc |((if 1 / 2 < r then n + 1 else if r < 1 / 2 then n
          else if n % 2 = 0 then n else n + 1 : ℤ) : ℚ) * u - x|
        = |(((if 1 / 2 < r then n + 1 else if r < 1 / 2 then n
            else if n % 2 = 0 then n else n + 1 : ℤ) : ℚ) - x / u) * u| := by
          rw [sub_mul, div_mul_cancel₀ _ (ne_of_gt hu0)]
      _ = |((if 1 / 2 < r then n + 1 else if r < 1 / 2 then n
            else if n % 2 = 0 then n else n + 1 : ℤ) : ℚ) - x / u| * u := by
          rw [abs_mul, abs_of_pos hu0]
      _ ≤ (1 / 2) * u := by
          exact mul_le_mul_of_nonneg_right habs (le_of_lt hu0)
      _ = u / 2 := by ring
  have hhalf : u / 2 ≤ 2 ^ (-(p : ℤ)) * x := by
    have h1 : u / 2 = 2 ^ (e - p) := by
      rw [hu, show e - p + 1 = (e - p) + 1 by ring, zpow_add₀ (by norm_num : (2 : ℚ) ≠ 0)]
      ring
    have h2 : (2 : ℚ) ^ (e - p) = 2 ^ (-(p : ℤ)) * 2 ^ e := by
      rw [← zpow_add₀ (by norm_num : (2 : ℚ) ≠ 0)]
      ring_nf
    rw [h1, h2]
    have h3 : (0 : ℚ) < 2 ^ (-(p : ℤ)) := by positivity
    exact mul_le_mul_of_nonneg_left hlog1 (le_of_lt h3)
  exact le_trans hmain hhalf

/-- Relative error of round-to-nearest-even at `p` bits, for any rational. -/
lemma roundPrec_err (p : ℕ) (x : ℚ) :
    |roundPrec p x - x| ≤ 2 ^ (-(p : ℤ)) * |x| := by
  rcases lt_trichotomy x 0 with h | h | h
  · have h2 := roundPrecPos_err p (-x) (by linarith)
    unfold roundPrec
    rw [if_neg (ne_of_lt h), if_pos h]
    rw [show -roundPrecPos p (-x) - x = -(roundPrecPos p (-x) - -x) by ring, abs_neg,
      abs_of_neg h]
    exact h2
  · subst h
    simp [roundPrec_zero]
  · unfold roundPrec
    rw [if_neg (ne_of_gt h), if_neg (by simpa using le_of_lt h), abs_of_pos h]
    exact roundPrecPos_err p x h

/-- Characterization of `Int.log 2` used to evaluate it at concrete points. -/
lemma intLog_eq (x : ℚ) (e : ℤ) (h1 : (2 : ℚ) ^ e ≤ x) (h2 : x < 2 ^ (e + 1)) :
    Int.log 2 x = e := by
  have hx : 0 < x := lt_of_lt_of_le (by positivity) h1
  have hle : e ≤ Int.log 2 x := (Int.zpow_le_iff_le_log one_lt_two hx).mp h1
  have hlt : Int.log 2 x < e + 1 := (Int.lt_zpow_iff_log_lt one_lt_two hx).mp h2
  omega

/-- A positive dyadic rational with a `p`-bit significand rounds to itself. -/
lemma roundPrecPos_dyadic (p : ℕ) (m s : ℤ) (hm0 : 0 < m) (hm : m < 2 ^ p) :
    roundPrecPos p ((m : ℚ) * 2 ^ s) = (m : ℚ) * 2 ^ s := by
  have hx : (0 : ℚ) < (m : ℚ) * 2 ^ s := by positivity
  have hlog1 : (2 : ℚ) ^ (Int.log 2 ((m : ℚ) * 2 ^ s)) ≤ (m : ℚ) * 2 ^ s :=
    Int.zpow_log_le_self one_lt_two hx
  have hub : (m : ℚ) * 2 ^ s < 2 ^ ((p : ℤ) + s) := by
    have hmq : (m : ℚ) < 2 ^ (p : ℤ) := by
      rw [zpow_natCast]
      exact_mod_cast hm
    calc (m : ℚ) * 2 ^ s < 2 ^ (p : ℤ) * 2 ^ s := by
          have : (0 : ℚ) < (2 : ℚ) ^ s := by positivity
          exact mul_lt_mul_of_pos_right hmq this
      _ = 2 ^ ((p : ℤ) + s) := by
          rw [← zpow_add₀ (by norm_num : (2 : ℚ) ≠ 0)]
  have he : Int.log 2 ((m : ℚ) * 2 ^ s) < (p : ℤ) + s := by
    by_contra hcon
    push_neg at hcon
    have : (2 : ℚ) ^ ((p : ℤ) + s) ≤ 2 ^ (Int.log 2 ((m : ℚ) * 2 ^ s)) :=
      zpow_le_zpow_right₀ one_le_two hcon
    linarith
  simp only [roundPrecPos]
  set e := Int.log 2 ((m : ℚ) * 2 ^ s) with hedef
  set t : ℤ := s - (e - p + 1) with ht
  have ht0 : 0 ≤ t := by omega
  have hxu : (m : ℚ) * 2 ^ s / 2 ^ (e - p + 1) = ((m * 2 ^ t.toNat : ℤ) : ℚ) := by
    push_cast
    rw [show ((2 : ℚ) ^ t.toNat) = (2 : ℚ) ^ (t.toNat : ℤ) from (zpow_natCast _ _).symm]
    rw [Int.toNat_of_nonneg ht0, ht]
    rw [div_eq_iff (by positivity : ((2 : ℚ) ^ (e - p + 1)) ≠ 0)]
    rw [mul_assoc, ← zpow_add₀ (by norm_num : (2 : ℚ) ≠ 0)]
    congr 2
    ring
  rw [hxu, Int.floor_intCast]
  rw [show ((m * 2 ^ t.toNat : ℤ) : ℚ) - ((m * 2 ^ t.toNat : ℤ) : ℚ) = 0 by ring]
  rw [if_neg (by norm_num), if_pos (by norm_num)]
  rw [← hxu, div_mul_cancel₀ _ (by positivity : ((2 : ℚ) ^ (e - p + 1)) ≠ 0)]

/-- Integers whose magnitude fits in `p` bits round to themselves. -/
lemma roundPrec_int (p : ℕ) (z : ℤ) (hz : z.natAbs < 2 ^ p) :
    roundPrec p (z : ℚ) = (z : ℚ) := by
  have hz2 : (z.natAbs : ℤ) < (2 : ℤ) ^ p :=
    calc (z.natAbs : ℤ) < ((2 : ℕ) ^ p : ℤ) := by exact_mod_cast hz
      _ = (2 : ℤ) ^ p := by push_cast; ring
  rcases lt_trichotomy z 0 with h | h | h
  · have hm : 0 < -z := by omega
    have hm2 : -z < 2 ^ p := by omega
    have hd := roundPrecPos_dyadic p (-z) 0 hm hm2
    rw [show ((-z : ℤ) : ℚ) * 2 ^ (0 : ℤ) = -(z : ℚ) by push_cast; ring] at hd
    unfold roundPrec
    rw [if_neg (by exact_mod_cast ne_of_lt h), if_pos (by exact_mod_cast h), hd]
    ring
  · subst h
    simp [roundPrec_zero]
  · have hm2 : z < 2 ^ p := by omega
    have hd := roundPrecPos_dyadic p z 0 h hm2
    rw [show ((z : ℤ) : ℚ) * 2 ^ (0 : ℤ) = (z : ℚ) by ring] at hd
    unfold roundPrec
    rw [if_neg (by exact_mod_cast ne_of_gt h),
      if_neg (not_lt.mpr (by exact_mod_cast le_of_lt h)), hd]

/-- Every (kind, scale) pair of every variant has a positive scale at most
one million, and integer-kind columns always have scale 1. -/
lemma table_pairs :
    ∀ q ∈ dtype_table.zip scaling_table, ∀ ks ∈ q.1.zip q.2,
      (ks.1 = RawKind.i → ks.2 = 1) ∧ (0 < ks.2 ∧ ks.2 ≤ 1000000) := by
  intro q hq
  fin_cases hq <;>
  · intro ks hks
    fin_cases hks <;>
      exact ⟨fun h => by first | rfl | exact absurd h (by decide), by norm_num⟩

/-- Decoding an integer-kind column with scale 1 is exact. -/
lemma decodeField_i_exact (v : ℤ) (hv : v.natAbs < 2 ^ 53) :
    decodeField RawKind.i 1 v = (v : ℚ) := by
  simp only [decodeField]
  rw [div_one, roundPrec_int 53 v hv]
  simp [ratTrunc, Rat.num_intCast, Rat.den_intCast]

/-- Triangle-inequality chain for three successive roundings. -/
lemma chain_err (y a c d : ℚ) (h1 : |a - y| ≤ (1 / 16777216) * |y|)
    (h2 : |c - a| ≤ (1 / 9007199254740992) * |a|)
    (h3 : |d - c| ≤ (1 / 16777216) * |c|) :
    |d - y| ≤ (1 / 4194304) * |y| := by
  have hay : |a| ≤ |a - y| + |y| := by
    calc |a| = |(a - y) + y| := by ring_nf
      _ ≤ |a - y| + |y| := abs_add _ _
  have hca : |c| ≤ |c - a| + |a| := by
    calc |c| = |(c - a) + a| := by ring_nf
      _ ≤ |c - a| + |a| := abs_add _ _
  have htri : |d - y| ≤ |d - c| + |c - a| + |a - y| := by
    calc |d - y| = |(d - c) + ((c - a) + (a - y))| := by ring_nf
      _ ≤ |d - c| + |(c - a) + (a - y)| := abs_add _ _
      _ ≤ |d - c| + (|c - a| + |a - y|) := add_le_add_left (abs_add _ _) _
      _ = |d - c| + |c - a| + |a - y| := by ring
  have hy0 : 0 ≤ |y| := abs_nonneg _
  have ha0 : 0 ≤ |a| := abs_nonneg _
  have hc0 : 0 ≤ |c| := abs_nonneg _
  linarith

/-- Decoding a float-kind column has relative error at most `2 ^ (-22)`
(float32-level accuracy: two float32 roundings and one float64 rounding). -/
lemma decodeField_f_err (s : ℚ) (v : ℤ) (hs0 : 0 < s) :
    |decodeField RawKind.f s v - (v : ℚ) / s| ≤ 2 ^ (-22 : ℤ) * |(v : ℚ) / s| := by
  have e24 : (2 : ℚ) ^ (-(24 : ℤ)) = 1 / 16777216 := by norm_num
  have e53 : (2 : ℚ) ^ (-(53 : ℤ)) = 1 / 9007199254740992 := by norm_num
  have e22 : (2 : ℚ) ^ (-22 : ℤ) = 1 / 4194304 := by norm_num
  have hstep1 : |roundPrec 24 (v : ℚ) / s - (v : ℚ) / s| ≤
      (1 / 16777216) * |(v : ℚ) / s| := by
    have h1 := roundPrec_err 24 ((v : ℚ))
    simp only [Nat.cast_ofNat] at h1
    rw [e24] at h1
    rw [div_sub_div_same, abs_div, abs_of_pos hs0,
      show |(v : ℚ) / s| = |(v : ℚ)| / s by rw [abs_div, abs_of_pos hs0],
      ← mul_div_assoc]
    gcongr
  have hstep2 := roundPrec_err 53 (roundPrec 24 (v : ℚ) / s)
  simp only [Nat.cast_ofNat] at hstep2
  rw [e53] at hstep2
  have hstep3 := roundPrec_err 24 (roundPrec 53 (roundPrec 24 (v : ℚ) / s))
  simp only [Nat.cast_ofNat] at hstep3
  rw [e24] at hstep3
  show |roundPrec 24 (roundPrec 53 (roundPrec 24 (v : ℚ) / s)) - (v : ℚ) / s| ≤
    2 ^ (-22 : ℤ) * |(v : ℚ) / s|
  rw [e22]
  exact chain_err ((v : ℚ) / s) _ _ _ hstep1 hstep2 hstep3

/-- Evaluation of float32 rounding at 2100000001: its binade is
`[2 ^ 30, 2 ^ 31)`, the ulp is 128, and the value rounds down to
2100000000. -/
lemma r24_big : roundPrec 24 (2100000001 : ℚ) = 2100000000 := by
  have hlog : Int.log 2 (2100000001 : ℚ) = 30 := intLog_eq _ 30 (by norm_num) (by norm_num)
  unfold roundPrec
  rw [if_neg (by norm_num), if_neg (by norm_num)]
  unfold roundPrecPos
  rw [hlog]
  norm_num

/-- C6 (amended): for every variant and every aligned (kind, scale) column
pair, decoding an integer-kind column reproduces the raw value exactly (the
scale is 1), and decoding a float-kind column reproduces `rawValue / scale`
within float32 accuracy: relative error at most `2 ^ (-22)` (float-kind
output columns are 32-bit, not 64-bit, floats). -/
theorem C6_scale_amended :
    ∀ (kl : List RawKind) (sl : List ℚ), (kl, sl) ∈ dtype_table.zip scaling_table →
    ∀ (k : RawKind) (s : ℚ), (k, s) ∈ kl.zip sl →
    ∀ v : ℤ, v.natAbs ≤ 2 ^ 31 →
      (k = RawKind.i → decodeField k s v = (v : ℚ)) ∧
      (k = RawKind.f → |decodeField k s v - (v : ℚ) / s| ≤
        2 ^ (-22 : ℤ) * |(v : ℚ) / s|) := by
  intro kl sl hp k s hq v hv
  have hfact := table_pairs (kl, sl) hp (k, s) hq
  refine ⟨fun hk => ?_, fun hk => ?_⟩
  · subst hk
    have hs1 : s = 1 := hfact.1 rfl
    rw [hs1]
    refine decodeField_i_exact v ?_
    have h31 : (2 : ℕ) ^ 31 < 2 ^ 53 := by norm_num
    omega
  · subst hk
    have hs0 : (0 : ℚ) < s := hfact.2.1
    exact decodeField_f_err s v hs0

/-- Counterexample to C6 as stated: the raw value 2100000001 in the first
column of the 10-word variant (float kind, scale 1000) decodes to 2100000
exactly — the float32 conversion already loses the final digit — which
differs from `rawValue / scale = 2100000.001` by far more than float64
epsilon (relative error about `4.8e-10`, much larger than `2 ^ (-50)`). -/
theorem C6_scale_counterexample :
    decodeField RawKind.f 1000 2100000001 = 2100000 ∧
    ¬ |(2100000 : ℚ) - (2100000001 : ℚ) / 1000| ≤
        2 ^ (-50 : ℤ) * |(2100000001 : ℚ) / 1000| := by
  constructor
  · show roundPrec 24 (roundPrec 53 (roundPrec 24 ((2100000001 : ℤ) : ℚ) / 1000)) = 2100000
    rw [show ((2100000001 : ℤ) : ℚ) = (2100000001 : ℚ) by norm_num, r24_big]
    rw [show (2100000000 : ℚ) / 1000 = ((2100000 : ℤ) : ℚ) by norm_num]
    rw [roundPrec_int 53 _ (by norm_num), roundPrec_int 24 _ (by norm_num)]
    norm_num
  · intro hcon
    rw [show (2100000 : ℚ) - 2100000001 / 1000 = -(1 / 1000) by norm_num, abs_neg,
      abs_of_pos (by norm_num : (0 : ℚ) < 1 / 1000),
      abs_of_pos (by norm_num : (0 : ℚ) < (2100000001 : ℚ) / 1000),
      show (2 : ℚ) ^ (-50 : ℤ) = 1 / 1125899906842624 by norm_num] at hcon
    norm_num at hcon

/-- Witness for C6 (amended) at the first column of the 10-word variant
(float kind, scale 1000) with raw value 1000. -/
theorem C6_scale_witness :
    (RawKind.f, (1e3 : ℚ)) ∈ (dtype_table.getD 0 []).zip (scaling_table.getD 0 []) ∧
    (1000 : ℤ).natAbs ≤ 2 ^ 31 ∧
    ((RawKind.f = RawKind.i → decodeField RawKind.f 1e3 1000 = ((1000 : ℤ) : ℚ)) ∧
      (RawKind.f = RawKind.f →
        |decodeField RawKind.f 1e3 1000 - ((1000 : ℤ) : ℚ) / 1e3| ≤
          2 ^ (-22 : ℤ) * |((1000 : ℤ) : ℚ) / 1e3|)) := by
  refine ⟨List.mem_cons_self _ _, by norm_num, ?_⟩
  exact C6_scale_amended (dtype_table.getD 0 []) (scaling_table.getD 0 [])
    (List.mem_cons_self _ _) RawKind.f 1e3 (List.mem_cons_self _ _) 1000 (by norm_num)

lemma digitChar_toNat (d : ℕ) (hd : d < 10) : (digitChar d).toNat = 48 + d := by
  interval_cases d <;> rfl

lemma digitChar_ne_dot (d : ℕ) (hd : d < 10) : (digitChar d != '.') = true := by
  interval_cases d <;> rfl

/-- Formatting a value with an exact thousandths representation `N`. -/
lemma fmt0103_eval (x : ℚ) (N : ℕ) (hx : x * 1000 = (N : ℚ)) :
    fmt0103 x = [digitChar (N / 100000000 % 10), digitChar (N / 10000000 % 10),
      digitChar (N / 1000000 % 10), digitChar (N / 100000 % 10),
      digitChar (N / 10000 % 10), digitChar (N / 1000 % 10), '.',
      digitChar (N / 100 % 10), digitChar (N / 10 % 10), digitChar (N % 10)] := by
  simp only [fmt0103, hx, Int.floor_natCast]
  rw [show (N : ℚ) - ((N : ℤ) : ℚ) = 0 by push_cast; ring]
  rw [if_neg (by norm_num), if_pos (by norm_num)]
  rw [Int.toNat_natCast]

lemma decDigits_two (a b : ℕ) (ha : a < 10) (hb : b < 10) :
    decDigits [digitChar a, digitChar b] = 10 * a + b := by
  simp only [decDigits, List.foldl, digitChar_toNat a ha, digitChar_toNat b hb]
  omega

lemma decDigits_three (a b c : ℕ) (ha : a < 10) (hb : b < 10) (hc : c < 10) :
    decDigits [digitChar a, digitChar b, digitChar c] = 100 * a + 10 * b + c := by
  simp only [decDigits, List.foldl, digitChar_toNat a ha, digitChar_toNat b hb,
    digitChar_toNat c hc]
  omega

lemma parseFloat_eval (a b c2 c1 c0 : ℕ) (ha : a < 10) (hb : b < 10)
    (hc2 : c2 < 10) (hc1 : c1 < 10) (hc0 : c0 < 10) :
    parseFloatChars [digitChar a, digitChar b, '.', digitChar c2, digitChar c1,
      digitChar c0] =
      ((10 * a + b : ℕ) : ℚ) + ((100 * c2 + 10 * c1 + c0 : ℕ) : ℚ) / 1000 := by
  have hdot : (('.' : Char) != '.') = false := rfl
  simp only [parseFloatChars, List.takeWhile_cons, List.dropWhile_cons,
    digitChar_ne_dot a ha, digitChar_ne_dot b hb, hdot, if_true, if_false,
    Bool.false_eq_true, List.takeWhile_nil, List.drop_succ_cons, List.drop_zero,
    List.length_cons, List.length_nil]
  rw [decDigits_two a b ha hb, decDigits_three c2 c1 c0 hc2 hc1 hc0]
  norm_num

/-- C9 (amended): for every packed time with hour < 24, minute < 60,
second < 60 and up to three fractional digits, the zero-padded width-10
format with three decimals followed by the fixed slices `[0:2]`, `[2:4]`,
`[4:]` recovers exactly the hour, minute and (fractional) second; in
particular 153320.100 formats to the TEN-character string "153320.100"
(not an eleven-character one) and parses to (15, 33, 20.100). -/
theorem C9_packed_time_amended (h m sI fr : ℕ) (hh : h < 24) (hm : m < 60)
    (hs : sI < 60) (hf : fr < 1000) :
    unpackHHMMSS ((h : ℚ) * 10000 + m * 100 + sI + (fr : ℚ) / 1000) =
      ((h : ℚ), (m : ℚ), (sI : ℚ) + (fr : ℚ) / 1000) := by
  have hx : ((h : ℚ) * 10000 + m * 100 + sI + (fr : ℚ) / 1000) * 1000 =
      ((h * 10000000 + m * 100000 + sI * 1000 + fr : ℕ) : ℚ) := by
    push_cast
    ring
  set N := h * 10000000 + m * 100000 + sI * 1000 + fr with hN
  unfold unpackHHMMSS
  rw [fmt0103_eval _ N hx]
  have hslices : parseSlices [digitChar (N / 100000000 % 10),
      digitChar (N / 10000000 % 10), digitChar (N / 1000000 % 10),
      digitChar (N / 100000 % 10), digitChar (N / 10000 % 10),
      digitChar (N / 1000 % 10), '.', digitChar (N / 100 % 10),
      digitChar (N / 10 % 10), digitChar (N % 10)] =
      ((decDigits [digitChar (N / 100000000 % 10), digitChar (N / 10000000 % 10)] : ℚ),
       (decDigits [digitChar (N / 1000000 % 10), digitChar (N / 100000 % 10)] : ℚ),
       parseFloatChars [digitChar (N / 10000 % 10), digitChar (N / 1000 % 10), '.',
         digitChar (N / 100 % 10), digitChar (N / 10 % 10), digitChar (N % 10)]) := rfl
  rw [hslices,
    decDigits_two _ _ (Nat.mod_lt _ (by norm_num)) (Nat.mod_lt _ (by norm_num)),
    decDigits_two _ _ (Nat.mod_lt _ (by norm_num)) (Nat.mod_lt _ (by norm_num)),
    parseFloat_eval _ _ _ _ _ (Nat.mod_lt _ (by norm_num)) (Nat.mod_lt _ (by norm_num))
      (Nat.mod_lt _ (by norm_num)) (Nat.mod_lt _ (by norm_num))
      (Nat.mod_lt _ (by norm_num))]
  simp only [Prod.mk.injEq]
  refine ⟨?_, ?_, ?_⟩
  · have e1 : 10 * (N / 100000000 % 10) + N / 10000000 % 10 = h := by omega
    exact_mod_cast congrArg (Nat.cast : ℕ → ℚ) e1
  · have e1 : 10 * (N / 1000000 % 10) + N / 100000 % 10 = m := by omega
    exact_mod_cast congrArg (Nat.cast : ℕ → ℚ) e1
  · have e1 : 10 * (N / 10000 % 10) + N / 1000 % 10 = sI := by omega
    have e2 : 100 * (N / 100 % 10) + 10 * (N / 10 % 10) + N % 10 = fr := by omega
    rw [e1, e2]

/-- Counterexample to C9 as stated: the spec's example string "0153320.100"
has ELEVEN characters; under the code's fixed slices it parses to hour 1,
minute 53, second 320.100 — not (15, 33, 20.100) — and the code never
produces it: formatting the packed value 153320.100 at width 10 yields the
ten-character "153320.100". -/
theorem C9_packed_time_counterexample :
    parseSlices ['0', '1', '5', '3', '3', '2', '0', '.', '1', '0', '0'] =
      (1, 53, 320 + (100 : ℚ) / 1000) ∧
    parseSlices ['0', '1', '5', '3', '3', '2', '0', '.', '1', '0', '0'] ≠
      (15, 33, 20 + (100 : ℚ) / 1000) ∧
    fmt0103 (153320 + (1 : ℚ) / 10) =
      ['1', '5', '3', '3', '2', '0', '.', '1', '0', '0'] := by
  have h1 : parseSlices ['0', '1', '5', '3', '3', '2', '0', '.', '1', '0', '0'] =
      (1, 53, 320 + (100 : ℚ) / 1000) := by
    have hred : parseSlices ['0', '1', '5', '3', '3', '2', '0', '.', '1', '0', '0'] =
        ((decDigits ['0', '1'] : ℚ), (decDigits ['5', '3'] : ℚ),
          (decDigits ['3', '2', '0'] : ℚ) + (decDigits ['1', '0', '0'] : ℚ) / 10 ^ 3) :=
      rfl
    rw [hred]
    norm_num [decDigits, List.foldl, show '0'.toNat = 48 from rfl,
      show '1'.toNat = 49 from rfl, show '2'.toNat = 50 from rfl,
      show '3'.toNat = 51 from rfl, show '5'.toNat = 53 from rfl]
  refine ⟨h1, ?_, ?_⟩
  · rw [h1]
    intro hcon
    have h2 := congrArg Prod.fst hcon
    norm_num at h2
  · rw [fmt0103_eval _ 153320100 (by norm_num)]
    rfl

/-- Witness for C9 (amended) at the spec's own example time 15:33:20.100. -/
theorem C9_packed_time_witness :
    ((15 : ℕ) < 24 ∧ (33 : ℕ) < 60 ∧ (20 : ℕ) < 60 ∧ (100 : ℕ) < 1000) ∧
    unpackHHMMSS ((15 : ℚ) * 10000 + 33 * 100 + 20 + (100 : ℚ) / 1000) =
      ((15 : ℚ), (33 : ℚ), (20 : ℚ) + (100 : ℚ) / 1000) := by
  refine ⟨by norm_num, ?_⟩
  have h := C9_packed_time_amended 15 33 20 100 (by norm_num) (by norm_num)
    (by norm_num) (by norm_num)
  simpa using h

end ATM1bQFIT
